import Mathlib

/-!
Verification of the conversation/turn-management core of the word-guessing
game in `src/conversation.py`. The Python program delegates all game
intelligence to an external chat-completion service; the code verified here
is the client-side orchestration: the conversation store (a list of role
tagged messages), the request-context builder, the streaming consumer, and
the main game loop with its attempt/hint budgets and keyword-based win
detection.

The embedding is shallow: Python lists become Lean lists, the mutable
`GameState`/`PromptEngineer` fields become a Lean structure threaded through
the loop, and the external completion service becomes a tape of
`Except SvcError String` values consumed one per request (`Except.error`
models an exception raised by the service client, which the source does not
catch). Player stdin becomes a tape of strings consumed one per `input()`
call. `print` calls are not modelled (they do not affect state). Three
ghost fields instrument observable events of the source: `requests` counts
completed completion requests (`client.chat.completions.create` calls that
returned), `offers` counts answered hint prompts (the `input` call at line
481), and `scanned` records exactly the reply texts scanned for win
keywords (line 467).
-/

namespace GuessingGame

/-- Message roles of the chat payload (`"system"`, `"user"`, `"assistant"`
strings in the source). The spec's PLAYER is the `user` role. -/
inductive Role
  | system
  | user
  | assistant
deriving DecidableEq

/-- One chat message `{"role": ..., "content": ...}` (the spec's Turn). -/
structure Message where
  role : Role
  content : String
deriving DecidableEq

/-- The `PromptType` enum of the source. -/
inductive PromptType
  | system
  | fewShot
  | chainOfThought
  | roleBased
  | template
deriving DecidableEq

/-- Service request failures (spec section 7 taxonomy); the source does not
catch them, so any raised error aborts the session. -/
inductive SvcError
  | network
  | auth
  | quota
deriving DecidableEq

/-- The mutable session state: the `GameState` dataclass fields used by the
loop (`attempts`, `max_attempts`, `game_over`, `hints_given`, `max_hints`),
the `PromptEngineer.conversation_history` list, and three ghost event
counters (`requests`, `offers`, `scanned`) described in the file header.
The unused `game_mode`/`target_word` fields are omitted. -/
structure GameState where
  attempts : Nat
  maxAttempts : Nat
  gameOver : Bool
  hintsGiven : Nat
  maxHints : Nat
  history : List Message
  requests : Nat
  offers : Nat
  scanned : List String

/-- The fresh session state: `GameState()` defaults of the dataclass
(attempts 0, max_attempts 4, game_over False, hints_given 0, max_hints 3)
with an empty conversation history. -/
def initState : GameState :=
  { attempts := 0, maxAttempts := 4, gameOver := false, hintsGiven := 0, maxHints := 3,
    history := [], requests := 0, offers := 0, scanned := [] }

/-- Python `str.lower()` (ASCII range, which covers every string the program
compares). -/
def strLower (s : String) : String :=
  ⟨s.data.map Char.toLower⟩

/-- Python `str.strip()`: drop whitespace from both ends. -/
def pyStrip (s : String) : String :=
  ⟨((s.data.dropWhile Char.isWhitespace).reverse.dropWhile Char.isWhitespace).reverse⟩

/-- Character-list prefix test: `prefixAt n h = true` iff `n` begins `h`. -/
def prefixAt : List Char → List Char → Bool
  | [], _ => true
  | _ :: _, [] => false
  | a :: as, b :: bs => a == b && prefixAt as bs

/-- Character-list substring test, scanning every suffix of the haystack. -/
def hasSubList (n : List Char) : List Char → Bool
  | [] => prefixAt n []
  | b :: t => prefixAt n (b :: t) || hasSubList n t

/-- Python's `needle in hay` substring containment on strings. -/
def strContains (hay needle : String) : Bool :=
  hasSubList needle.data hay.data

/-- The fixed keyword list of line 467 of the source. -/
def winKeywords : List String :=
  ["congratulations", "correct", "you got it", "right", "exactly"]

/-- Win detection (line 467):
`any(word in ai_response.lower() for word in [...])`. -/
def winDetect (reply : String) : Bool :=
  winKeywords.any (fun w => strContains (strLower reply) w)

/-- The `game_master` persona of `get_system_prompts` (lines 59-72), the
system prompt every request context starts with. -/
def gameMasterPrompt : String :=
  "You are an expert word guessing game master with 20+ years of experience in educational games. \n            Your role is to create engaging, educational, and fun word guessing experiences.\n            \n            PERSONALITY TRAITS:\n            - Enthusiastic and encouraging\n            - Patient with learners\n            - Creative in clue generation\n            - Educational focus\n            \n            EXPERTISE AREAS:\n            - Vocabulary building\n            - Critical thinking development\n            - Pattern recognition\n            - Language learning techniques"

/-- The `hint_progression` few-shot example (lines 110-122) as
`json.dumps(example, indent=2)` renders it. -/
def hintProgressionJson : String :=
  "\x7b\n  \"word\": \"PHOTOSYNTHESIS\",\n  \"hints\": [\n    \"I\x27m a biological process that plants use to make food.\",\n    \"I require sunlight, water, and carbon dioxide.\",\n    \"I produce glucose and oxygen as byproducts.\",\n    \"I happen in the chloroplasts of plant cells.\"\n  ]\n\x7d"

/-- The extra system message appended when the request mentions hints
(line 218-221). -/
def fewShotHintMessage : Message :=
  ⟨Role.system, "EXAMPLE HINT PROGRESSION: " ++ hintProgressionJson⟩

/-- `create_chain_of_thought_prompt` (lines 138-158): the f-string filled
with the current game-state counters and the context text. -/
def createChainOfThoughtPrompt (context : String) (gs : GameState) : String :=
  "\n        Let\x27s think step by step about this word guessing scenario:\n        \n        CONTEXT: " ++
    context ++
    "\n        \n        REASONING PROCESS:\n        1. First, I need to analyze what the player is trying to guess\n        2. Then, I should consider their current understanding level\n        3. Next, I\x27ll determine the appropriate difficulty of my response\n        4. Finally, I\x27ll craft a response that guides without giving away the answer\n        \n        STEP-BY-STEP ANALYSIS:\n        - Current attempt number: " ++
    toString gs.attempts ++
    "\n        - Remaining attempts: " ++
    toString (gs.maxAttempts - gs.attempts) ++
    "\n        - Hints given so far: " ++
    toString gs.hintsGiven ++
    "\n        - Player\x27s last guess: " ++
    context ++
    "\n        \n        REASONING: Based on this analysis, I should...\n        "

/-- `build_conversation_context` (lines 206-234): persona system prompt,
then (when the input mentions a hint or hints were already given) the
few-shot system message, then (for chain-of-thought requests) a reasoning
system message, then the full conversation history, then the current user
input. -/
def buildConversationContext (userInput : String) (pt : PromptType) (gs : GameState) :
    List Message :=
  ([⟨Role.system, gameMasterPrompt⟩]
      ++ (if strContains (strLower userInput) "hint" = true ∨ 0 < gs.hintsGiven then
            [fewShotHintMessage]
          else [])
      ++ (if pt = PromptType.chainOfThought then
            [⟨Role.system, createChainOfThoughtPrompt userInput gs⟩]
          else []))
    ++ gs.history ++ [⟨Role.user, userInput⟩]

/-- The initial-clue request text (line 436). -/
def initialCluePrompt : String :=
  "Let\x27s play a word guessing game! Give me a word to guess with an initial clue."

/-- The guess-analysis request text (line 459), built from the stripped
guess. -/
def guessAnalysisText (guess : String) : String :=
  "Player guessed: \x27" ++ guess ++ "\x27. Analyze this guess and provide feedback."

/-- The hint request text: the `hint_request` template (lines 179-190)
formatted at lines 486-491 (with `hints_given` already incremented), plus
the suffix appended at line 493. -/
def hintRequestText (attempts maxAttempts hintsGiven : Nat) (lastGuess : String) : String :=
  "\n            HINT REQUEST ANALYSIS:\n            - Current attempt: " ++
    toString attempts ++ "/" ++ toString maxAttempts ++
    "\n            - Previous hints given: " ++ toString hintsGiven ++
    "\n            - Player\x27s last guess: \"" ++ lastGuess ++
    "\"\n            \n            HINT STRATEGY:\n            - Provide a hint that\x27s more specific than the last\n            - Guide toward the answer without revealing it\n            - Consider the player\x27s learning style\n            - Maintain engagement and challenge\n            " ++
    "\n\nProvide a helpful hint for the word."

/-- The affirmative test for the hint prompt (lines 481-482):
`input(...).strip().lower() in ["y", "yes"]`. -/
def isYes (choice : String) : Bool :=
  let t := strLower (pyStrip choice)
  t == "y" || t == "yes"

/-- The history update of `get_ai_response` (lines 271-273): append the user
turn and the assistant reply at the end, and count one completed completion
request (ghost counter). -/
def appendExchange (st : GameState) (userInput reply : String) : GameState :=
  { st with
    history := st.history ++ [⟨Role.user, userInput⟩, ⟨Role.assistant, reply⟩],
    requests := st.requests + 1 }

/-- `get_ai_response` (lines 236-275): one completion request over the full
context. The service outcome is the next element of the reply tape: a raised
error propagates (the source catches nothing, so the history update is
skipped); a successful reply (already concatenated from the stream, see
`consumeStream`) is appended to the history and returned. -/
def getAiResponse (st : GameState) (userInput : String) (svc : Except SvcError String) :
    Except SvcError (GameState × String) :=
  match svc with
  | Except.error e => Except.error e
  | Except.ok reply => Except.ok (appendExchange st userInput reply, reply)

/-- The win scan of lines 467-468 applied to a guess reply: `game_over`
becomes true exactly when a keyword matches, and the ghost `scanned` log
records that this reply text was scanned. -/
def scanReply (st : GameState) (reply : String) : GameState :=
  { st with
    gameOver := st.gameOver || winDetect reply,
    scanned := st.scanned ++ [reply] }

/-- An accepted hint (lines 483-498): increment `hints_given`, then issue
one completion request with the formatted hint template. -/
def acceptHint (st : GameState) (lastGuess : String) (svc : Except SvcError String) :
    Except SvcError (GameState × String) :=
  getAiResponse { st with hintsGiven := st.hintsGiven + 1 }
    (hintRequestText st.attempts st.maxAttempts (st.hintsGiven + 1) lastGuess) svc

/-- Outcome of one iteration of the while loop: the loop either ends now
(`done`, with the final state or a propagated service error) or continues
with the next state and the remaining input/reply tapes. -/
inductive StepOut
  | done (result : Except SvcError GameState)
  | next (st : GameState) (users : List String) (replies : List (Except SvcError String))

/-- The hint-offer phase (lines 476-498): offered only when attempts remain,
the game is not over, and the hint budget is not exhausted. An answered
offer bumps the ghost `offers` counter; a yes answer takes one hint and one
completion request. Running out of player input or service replies halts
the session in place (the program would block forever on `input()` or the
request). -/
def hintPhase (st : GameState) (lastGuess : String) (users : List String)
    (replies : List (Except SvcError String)) : StepOut :=
  if st.attempts < st.maxAttempts ∧ st.gameOver = false ∧ st.hintsGiven < st.maxHints then
    match users with
    | [] => StepOut.done (Except.ok st)
    | choice :: users2 =>
      let stD := { st with offers := st.offers + 1 }
      if isYes choice = true then
        match replies with
        | [] => StepOut.done (Except.ok { stD with hintsGiven := stD.hintsGiven + 1 })
        | svc :: replies2 =>
          match acceptHint stD lastGuess svc with
          | Except.error e => StepOut.done (Except.error e)
          | Except.ok (stF, _) => StepOut.next stF users2 replies2
      else StepOut.next stD users2 replies
  else StepOut.next st users replies

/-- One iteration of the while loop body (lines 447-498), given the consumed
player input `inp`: increment `attempts`; an empty (stripped) guess is
decremented back and the loop continues; otherwise one completion request
analyses the guess, the reply is scanned for win keywords (a win breaks the
loop), and the hint-offer phase runs. -/
def loopIter (st : GameState) (inp : String) (users : List String)
    (replies : List (Except SvcError String)) : StepOut :=
  let stA := { st with attempts := st.attempts + 1 }
  let g := pyStrip inp
  if g = "" then
    StepOut.next { stA with attempts := stA.attempts - 1 } users replies
  else
    match replies with
    | [] => StepOut.done (Except.ok stA)
    | svc :: replies1 =>
      match getAiResponse stA (guessAnalysisText g) svc with
      | Except.error e => StepOut.done (Except.error e)
      | Except.ok (stR, reply) =>
        let stC := scanReply stR reply
        if stC.gameOver = true then
          StepOut.done (Except.ok stC)
        else
          hintPhase stC g users replies1

/-- The while loop (lines 444-498) driven by the player-input tape and the
service-reply tape. The guard `attempts < max_attempts and not game_over`
is checked before each iteration; the returned list records the state at
each check plus the final state (the session trace), and the second
component is the final state (or the first propagated service error). The
fuel argument only bounds the recursion; `gameRun` supplies enough fuel
that it never runs out before the player-input tape does (each iteration
consumes at least one input). -/
def gameRunF : Nat → GameState → List String → List (Except SvcError String) →
    List GameState × Except SvcError GameState
  | 0, st, _, _ => ([st], Except.ok st)
  | fuel + 1, st, users, replies =>
    if st.attempts < st.maxAttempts ∧ st.gameOver = false then
      match users with
      | [] => ([st], Except.ok st)
      | inp :: users1 =>
        match loopIter st inp users1 replies with
        | StepOut.done (Except.ok s) => ([st, s], Except.ok s)
        | StepOut.done (Except.error e) => ([st], Except.error e)
        | StepOut.next st2 users2 replies2 =>
          let r := gameRunF fuel st2 users2 replies2
          (st :: r.1, r.2)
    else ([st], Except.ok st)

/-- The game loop on finite tapes: fuel `users.length + 1` never runs out
before the input tape does, since each iteration consumes at least one
player input. -/
def gameRun (st : GameState) (users : List String)
    (replies : List (Except SvcError String)) :
    List GameState × Except SvcError GameState :=
  gameRunF (users.length + 1) st users replies

/-- A whole session of `main_game_loop` after configuration: the initial
clue request (lines 436-441, whose reply is never win-scanned), then the
while loop. -/
def runSession (st : GameState) (users : List String) :
    List (Except SvcError String) → List GameState × Except SvcError GameState
  | [] => ([st], Except.ok st)
  | svc :: rest =>
    match getAiResponse st initialCluePrompt svc with
    | Except.error e => ([st], Except.error e)
    | Except.ok (st1, _) => gameRun st1 users rest

/-- The streaming consumer (lines 259-267): start from the empty string and
append each arriving fragment in order, skipping chunks whose
`delta.content` is `None`. -/
def consumeStream (chunks : List (Option String)) : String :=
  chunks.foldl
    (fun acc c =>
      match c with
      | some s => acc ++ s
      | none => acc)
    ""

/-- In-order concatenation of a fragment sequence (the reply text the
service committed to). -/
def concatFragments (frags : List String) : String :=
  frags.foldl (fun a b => a ++ b) ""


/-- The states a step outcome exposes: the continuation state of `next`, or
the final state of a successful `done` (a propagated error exposes none). -/
def StepOut.states : StepOut → List GameState
  | StepOut.done (Except.ok s) => [s]
  | StepOut.done (Except.error _) => []
  | StepOut.next s _ _ => [s]

/-- The claim predicate of C2, read literally: the payload starts with
exactly one SYSTEM turn before any other turn. -/
def beginsWithExactlyOneSystem (ms : List Message) : Prop :=
  (ms.takeWhile (fun m => decide (m.role = Role.system))).length = 1

theorem prefixAt_iff (n : List Char) : ∀ h : List Char,
    prefixAt n h = true ↔ ∃ t, h = n ++ t := by
  induction n with
  | nil =>
    intro h
    constructor
    · intro _
      exact ⟨h, rfl⟩
    · intro _
      rfl
  | cons a as ih =>
    intro h
    cases h with
    | nil =>
      constructor
      · intro hb
        simp [prefixAt] at hb
      · rintro ⟨t, ht⟩
        simp at ht
    | cons b bs =>
      simp only [prefixAt, Bool.and_eq_true, beq_iff_eq]
      constructor
      · rintro ⟨rfl, hrest⟩
        obtain ⟨t, ht⟩ := (ih bs).mp hrest
        exact ⟨t, by simp [ht]⟩
      · rintro ⟨t, ht⟩
        rw [List.cons_append] at ht
        injection ht with h1 h2
        exact ⟨h1.symm, (ih bs).mpr ⟨t, h2⟩⟩

theorem hasSubList_iff (n : List Char) : ∀ h : List Char,
    hasSubList n h = true ↔ ∃ pre post, h = pre ++ n ++ post := by
  intro h
  induction h with
  | nil =>
    simp only [hasSubList]
    constructor
    · intro hb
      obtain ⟨t, ht⟩ := (prefixAt_iff n []).mp hb
      exact ⟨[], t, by simpa using ht⟩
    · rintro ⟨pre, post, hp⟩
      apply (prefixAt_iff n []).mpr
      cases pre with
      | nil => exact ⟨post, by simpa using hp⟩
      | cons a as => simp at hp
  | cons b t ih =>
    simp only [hasSubList, Bool.or_eq_true]
    constructor
    · intro hb
      rcases hb with hb | hb
      · obtain ⟨t2, ht⟩ := (prefixAt_iff n (b :: t)).mp hb
        exact ⟨[], t2, by simpa using ht⟩
      · obtain ⟨pre, post, hp⟩ := ih.mp hb
        exact ⟨b :: pre, post, by simp [hp]⟩
    · rintro ⟨pre, post, hp⟩
      cases pre with
      | nil =>
        left
        exact (prefixAt_iff n (b :: t)).mpr ⟨post, by simpa using hp⟩
      | cons a as =>
        right
        rw [List.cons_append, List.cons_append] at hp
        injection hp with h1 h2
        exact ih.mpr ⟨as, post, h2⟩

/-- Substring containment as an existential decomposition. -/
theorem strContains_iff (hay needle : String) :
    strContains hay needle = true ↔ ∃ pre post, hay.data = pre ++ needle.data ++ post :=
  hasSubList_iff needle.data hay.data

/-- Shared decomposition of `buildConversationContext`: the payload is an
all-system prefix headed by the persona prompt, followed by the whole
conversation history in order, followed by the current user turn. -/
theorem buildContext_split (userInput : String) (pt : PromptType) (gs : GameState) :
    ∃ sys : List Message,
      buildConversationContext userInput pt gs = sys ++ gs.history ++ [⟨Role.user, userInput⟩]
        ∧ sys.head? = some ⟨Role.system, gameMasterPrompt⟩
        ∧ ∀ m ∈ sys, m.role = Role.system := by
  refine ⟨[⟨Role.system, gameMasterPrompt⟩]
      ++ (if strContains (strLower userInput) "hint" = true ∨ 0 < gs.hintsGiven then
            [fewShotHintMessage]
          else [])
      ++ (if pt = PromptType.chainOfThought then
            [⟨Role.system, createChainOfThoughtPrompt userInput gs⟩]
          else []), rfl, by rfl, ?_⟩
  intro m hm
  simp only [List.mem_append, List.mem_singleton] at hm
  rcases hm with (hm | hm) | hm
  · rw [hm]
  · split at hm
    · rw [List.mem_singleton] at hm
      rw [hm]
      rfl
    · simp at hm
  · split at hm
    · rw [List.mem_singleton] at hm
      rw [hm]
    · simp at hm

/-- Incrementing then decrementing `attempts` (lines 447, 455) restores the
state unchanged. -/
theorem attempts_inc_dec (st : GameState) :
    { st with attempts := st.attempts + 1 - 1 } = st := by
  cases st
  simp

@[simp] theorem appendExchange_attempts (st : GameState) (t r : String) :
    (appendExchange st t r).attempts = st.attempts := rfl

@[simp] theorem appendExchange_maxAttempts (st : GameState) (t r : String) :
    (appendExchange st t r).maxAttempts = st.maxAttempts := rfl

@[simp] theorem appendExchange_gameOver (st : GameState) (t r : String) :
    (appendExchange st t r).gameOver = st.gameOver := rfl

@[simp] theorem appendExchange_hintsGiven (st : GameState) (t r : String) :
    (appendExchange st t r).hintsGiven = st.hintsGiven := rfl

@[simp] theorem appendExchange_maxHints (st : GameState) (t r : String) :
    (appendExchange st t r).maxHints = st.maxHints := rfl

@[simp] theorem appendExchange_offers (st : GameState) (t r : String) :
    (appendExchange st t r).offers = st.offers := rfl

@[simp] theorem appendExchange_scanned (st : GameState) (t r : String) :
    (appendExchange st t r).scanned = st.scanned := rfl

@[simp] theorem appendExchange_requests (st : GameState) (t r : String) :
    (appendExchange st t r).requests = st.requests + 1 := rfl

@[simp] theorem appendExchange_history (st : GameState) (t r : String) :
    (appendExchange st t r).history =
      st.history ++ [⟨Role.user, t⟩, ⟨Role.assistant, r⟩] := rfl

@[simp] theorem scanReply_attempts (st : GameState) (r : String) :
    (scanReply st r).attempts = st.attempts := rfl

@[simp] theorem scanReply_maxAttempts (st : GameState) (r : String) :
    (scanReply st r).maxAttempts = st.maxAttempts := rfl

@[simp] theorem scanReply_gameOver (st : GameState) (r : String) :
    (scanReply st r).gameOver = (st.gameOver || winDetect r) := rfl

@[simp] theorem scanReply_hintsGiven (st : GameState) (r : String) :
    (scanReply st r).hintsGiven = st.hintsGiven := rfl

@[simp] theorem scanReply_maxHints (st : GameState) (r : String) :
    (scanReply st r).maxHints = st.maxHints := rfl

@[simp] theorem scanReply_offers (st : GameState) (r : String) :
    (scanReply st r).offers = st.offers := rfl

@[simp] theorem scanReply_requests (st : GameState) (r : String) :
    (scanReply st r).requests = st.requests := rfl

@[simp] theorem scanReply_scanned (st : GameState) (r : String) :
    (scanReply st r).scanned = st.scanned ++ [r] := rfl

@[simp] theorem scanReply_history (st : GameState) (r : String) :
    (scanReply st r).history = st.history := rfl

/-- The streaming fold from any accumulator equals in-order concatenation of
the non-`None` fragments. -/
theorem consumeStream_foldl (chunks : List (Option String)) : ∀ acc : String,
    List.foldl
      (fun acc c =>
        match c with
        | some s => acc ++ s
        | none => acc)
      acc chunks =
    List.foldl (fun a b => a ++ b) acc (chunks.filterMap id) := by
  induction chunks with
  | nil => intro acc; rfl
  | cons c t ih =>
    intro acc
    cases c with
    | none => exact ih acc
    | some s => exact ih (acc ++ s)

/-- The streaming consumer yields exactly the in-order concatenation of the
arriving fragments. -/
theorem consumeStream_eq (chunks : List (Option String)) :
    consumeStream chunks = concatFragments (chunks.filterMap id) :=
  consumeStream_foldl chunks ""

/-- Every state the hint phase can continue with or halt in keeps the
counters within their budgets. -/
theorem hintPhase_states_inv (st : GameState) (g : String) (users : List String)
    (replies : List (Except SvcError String))
    (ha : st.attempts ≤ st.maxAttempts) (hh : st.hintsGiven ≤ st.maxHints) :
    ∀ s ∈ (hintPhase st g users replies).states,
      s.attempts ≤ s.maxAttempts ∧ s.hintsGiven ≤ s.maxHints := by
  intro s hs
  cases users with
  | nil =>
    simp only [hintPhase] at hs
    split at hs <;>
      · simp only [StepOut.states, List.mem_singleton] at hs
        subst hs
        exact ⟨ha, hh⟩
  | cons choice users2 =>
    simp only [hintPhase] at hs
    split at hs
    next hcond =>
      split at hs
      next hyes =>
        cases replies with
        | nil =>
          simp only [StepOut.states, List.mem_singleton] at hs
          subst hs
          have hlt := hcond.2.2
          dsimp only
          constructor
          · exact ha
          · omega
        | cons svc replies2 =>
          simp only [acceptHint, getAiResponse] at hs
          cases svc with
          | error e => simp [StepOut.states] at hs
          | ok reply =>
            simp only [StepOut.states, List.mem_singleton] at hs
            subst hs
            have hlt := hcond.2.2
            simp only [appendExchange_attempts, appendExchange_maxAttempts,
              appendExchange_hintsGiven, appendExchange_maxHints]
            constructor
            · exact ha
            · omega
      next hno =>
        simp only [StepOut.states, List.mem_singleton] at hs
        subst hs
        exact ⟨ha, hh⟩
    next hcond =>
      simp only [StepOut.states, List.mem_singleton] at hs
      subst hs
      exact ⟨ha, hh⟩

/-- Every state one loop iteration can continue with or halt in keeps the
counters within their budgets. -/
theorem loopIter_states_inv (st : GameState) (inp : String) (users : List String)
    (replies : List (Except SvcError String))
    (ha : st.attempts < st.maxAttempts) (hh : st.hintsGiven ≤ st.maxHints) :
    ∀ s ∈ (loopIter st inp users replies).states,
      s.attempts ≤ s.maxAttempts ∧ s.hintsGiven ≤ s.maxHints := by
  intro s hs
  simp only [loopIter] at hs
  split at hs
  next hempty =>
    simp only [StepOut.states, List.mem_singleton] at hs
    subst hs
    dsimp only
    omega
  next hnon =>
    cases replies with
    | nil =>
      simp only [StepOut.states, List.mem_singleton] at hs
      subst hs
      dsimp only
      omega
    | cons svc replies1 =>
      cases svc with
      | error e => simp [getAiResponse, StepOut.states] at hs
      | ok reply =>
        simp only [getAiResponse] at hs
        split at hs
        next hwin =>
          simp only [StepOut.states, List.mem_singleton] at hs
          subst hs
          simp only [scanReply_attempts, scanReply_maxAttempts, scanReply_hintsGiven,
            scanReply_maxHints, appendExchange_attempts, appendExchange_maxAttempts,
            appendExchange_hintsGiven, appendExchange_maxHints]
          omega
        next hnowin =>
          refine hintPhase_states_inv _ _ _ _ ?_ ?_ s hs
          · simp only [scanReply_attempts, scanReply_maxAttempts, appendExchange_attempts,
              appendExchange_maxAttempts]
            omega
          · simp only [scanReply_hintsGiven, scanReply_maxHints, appendExchange_hintsGiven,
              appendExchange_maxHints]
            omega

/-- The budget invariant for whole runs of the loop: from a state within
budgets, every state of the trace and the final state stay within budgets. -/
theorem gameRunF_inv : ∀ (fuel : Nat) (st : GameState) (users : List String)
    (replies : List (Except SvcError String)),
    st.attempts ≤ st.maxAttempts → st.hintsGiven ≤ st.maxHints →
    ((∀ s ∈ (gameRunF fuel st users replies).1,
        s.attempts ≤ s.maxAttempts ∧ s.hintsGiven ≤ s.maxHints)
      ∧ (∀ s, (gameRunF fuel st users replies).2 = Except.ok s →
        s.attempts ≤ s.maxAttempts ∧ s.hintsGiven ≤ s.maxHints)) := by
  intro fuel
  induction fuel with
  | zero =>
    intro st users replies h1 h2
    constructor
    · intro s hs
      simp only [gameRunF, List.mem_singleton] at hs
      subst hs
      exact ⟨h1, h2⟩
    · intro s hs
      simp only [gameRunF, Except.ok.injEq] at hs
      subst hs
      exact ⟨h1, h2⟩
  | succ fuel ih =>
    intro st users replies h1 h2
    by_cases hg : st.attempts < st.maxAttempts ∧ st.gameOver = false
    · cases users with
      | nil =>
        constructor
        · intro s hs
          simp only [gameRunF, hg, and_self, if_true, List.mem_singleton] at hs
          subst hs
          exact ⟨h1, h2⟩
        · intro s hs
          simp only [gameRunF, hg, and_self, if_true, Except.ok.injEq] at hs
          subst hs
          exact ⟨h1, h2⟩
      | cons inp users1 =>
        have hstep := loopIter_states_inv st inp users1 replies hg.1 h2
        cases hLI : loopIter st inp users1 replies with
        | done res =>
          cases res with
          | ok s0 =>
            have hs0 : s0.attempts ≤ s0.maxAttempts ∧ s0.hintsGiven ≤ s0.maxHints := by
              apply hstep
              rw [hLI]
              simp [StepOut.states]
            constructor
            · intro s hs
              simp only [gameRunF, hg, and_self, if_true, hLI, List.mem_cons, List.mem_singleton,
                List.not_mem_nil, or_false] at hs
              rcases hs with rfl | rfl
              · exact ⟨h1, h2⟩
              · exact hs0
            · intro s hs
              simp only [gameRunF, hg, and_self, if_true, hLI, Except.ok.injEq] at hs
              subst hs
              exact hs0
          | error e =>
            constructor
            · intro s hs
              simp only [gameRunF, hg, and_self, if_true, hLI, List.mem_singleton] at hs
              subst hs
              exact ⟨h1, h2⟩
            · intro s hs
              simp only [gameRunF, hg, and_self, if_true, hLI] at hs
              cases hs
        | next st2 u2 r2 =>
          have hst2 : st2.attempts ≤ st2.maxAttempts ∧ st2.hintsGiven ≤ st2.maxHints := by
            apply hstep
            rw [hLI]
            simp [StepOut.states]
          have hrec := ih st2 u2 r2 hst2.1 hst2.2
          constructor
          · intro s hs
            simp only [gameRunF, hg, and_self, if_true, hLI, List.mem_cons] at hs
            rcases hs with rfl | hs
            · exact ⟨h1, h2⟩
            · exact hrec.1 s hs
          · intro s hs
            simp only [gameRunF, hg, and_self, if_true, hLI] at hs
            exact hrec.2 s hs
    · constructor
      · intro s hs
        simp only [gameRunF, hg, if_false, List.mem_singleton] at hs
        subst hs
        exact ⟨h1, h2⟩
      · intro s hs
        simp only [gameRunF, hg, if_false, Except.ok.injEq] at hs
        subst hs
        exact ⟨h1, h2⟩

/-- With the hint budget exhausted, the hint phase never presents an offer:
the offer counter, the hint counter and the budget are all unchanged in any
state it exposes. -/
theorem hintPhase_states_budget (st : GameState) (g : String) (users : List String)
    (replies : List (Except SvcError String)) (hb : st.maxHints ≤ st.hintsGiven) :
    ∀ s ∈ (hintPhase st g users replies).states,
      s.offers = st.offers ∧ s.hintsGiven = st.hintsGiven ∧ s.maxHints = st.maxHints := by
  intro s hs
  simp only [hintPhase] at hs
  split at hs
  next hcond => exact absurd hcond.2.2 (by omega)
  next hcond =>
    simp only [StepOut.states, List.mem_singleton] at hs
    subst hs
    exact ⟨rfl, rfl, rfl⟩

/-- With the hint budget exhausted, a loop iteration leaves the offer
counter, the hint counter and the budget unchanged. -/
theorem loopIter_states_budget (st : GameState) (inp : String) (users : List String)
    (replies : List (Except SvcError String)) (hb : st.maxHints ≤ st.hintsGiven) :
    ∀ s ∈ (loopIter st inp users replies).states,
      s.offers = st.offers ∧ s.hintsGiven = st.hintsGiven ∧ s.maxHints = st.maxHints := by
  intro s hs
  simp only [loopIter] at hs
  split at hs
  next hempty =>
    simp only [StepOut.states, List.mem_singleton] at hs
    subst hs
    exact ⟨rfl, rfl, rfl⟩
  next hnon =>
    cases replies with
    | nil =>
      simp only [StepOut.states, List.mem_singleton] at hs
      subst hs
      exact ⟨rfl, rfl, rfl⟩
    | cons svc replies1 =>
      cases svc with
      | error e => simp [getAiResponse, StepOut.states] at hs
      | ok reply =>
        simp only [getAiResponse] at hs
        split at hs
        next hwin =>
          simp only [StepOut.states, List.mem_singleton] at hs
          subst hs
          refine ⟨?_, ?_, ?_⟩ <;> simp
        next hnowin =>
          obtain ⟨e1, e2, e3⟩ :=
            hintPhase_states_budget _ _ users replies1 (by simp; omega) s hs
          exact ⟨e1.trans (by simp), e2.trans (by simp), e3.trans (by simp)⟩

/-- Once the hint budget is exhausted, no later hint offer is ever presented
and no later hint is ever taken, for the rest of the run. -/
theorem gameRunF_budget : ∀ (fuel : Nat) (st : GameState) (users : List String)
    (replies : List (Except SvcError String)) (s : GameState),
    st.maxHints ≤ st.hintsGiven → (gameRunF fuel st users replies).2 = Except.ok s →
    s.offers = st.offers ∧ s.hintsGiven = st.hintsGiven := by
  intro fuel
  induction fuel with
  | zero =>
    intro st users replies s hb hs
    simp only [gameRunF, Except.ok.injEq] at hs
    subst hs
    exact ⟨rfl, rfl⟩
  | succ fuel ih =>
    intro st users replies s hb hs
    by_cases hg : st.attempts < st.maxAttempts ∧ st.gameOver = false
    · cases users with
      | nil =>
        simp only [gameRunF, hg, and_self, if_true, Except.ok.injEq] at hs
        subst hs
        exact ⟨rfl, rfl⟩
      | cons inp users1 =>
        have hstep := loopIter_states_budget st inp users1 replies hb
        cases hLI : loopIter st inp users1 replies with
        | done res =>
          cases res with
          | ok s0 =>
            simp only [gameRunF, hg, and_self, if_true, hLI, Except.ok.injEq] at hs
            subst hs
            have := hstep s0 (by rw [hLI]; simp [StepOut.states])
            exact ⟨this.1, this.2.1⟩
          | error e =>
            simp only [gameRunF, hg, and_self, if_true, hLI] at hs
            cases hs
        | next st2 u2 r2 =>
          simp only [gameRunF, hg, and_self, if_true, hLI] at hs
          have hrel := hstep st2 (by rw [hLI]; simp [StepOut.states])
          have hb2 : st2.maxHints ≤ st2.hintsGiven := by
            rw [hrel.2.2, hrel.2.1]
            exact hb
          have hrec := ih st2 u2 r2 s hb2 hs
          exact ⟨hrec.1.trans hrel.1, hrec.2.trans hrel.2.1⟩
    · simp only [gameRunF, hg, if_false, Except.ok.injEq] at hs
      subst hs
      exact ⟨rfl, rfl⟩

/-- The hint phase only ever appends to the conversation history. -/
theorem hintPhase_states_history (st : GameState) (g : String) (users : List String)
    (replies : List (Except SvcError String)) :
    ∀ s ∈ (hintPhase st g users replies).states,
      ∃ suffix, s.history = st.history ++ suffix := by
  intro s hs
  cases users with
  | nil =>
    simp only [hintPhase] at hs
    split at hs <;>
      · simp only [StepOut.states, List.mem_singleton] at hs
        subst hs
        exact ⟨[], by simp⟩
  | cons choice users2 =>
    simp only [hintPhase] at hs
    split at hs
    next hcond =>
      split at hs
      next hyes =>
        cases replies with
        | nil =>
          simp only [StepOut.states, List.mem_singleton] at hs
          subst hs
          exact ⟨[], by simp⟩
        | cons svc replies2 =>
          simp only [acceptHint, getAiResponse] at hs
          cases svc with
          | error e => simp [StepOut.states] at hs
          | ok reply =>
            simp only [StepOut.states, List.mem_singleton] at hs
            subst hs
            simp only [appendExchange_history]
            exact ⟨_, rfl⟩
      next hno =>
        simp only [StepOut.states, List.mem_singleton] at hs
        subst hs
        exact ⟨[], by simp⟩
    next hcond =>
      simp only [StepOut.states, List.mem_singleton] at hs
      subst hs
      exact ⟨[], by simp⟩

/-- A loop iteration only ever appends to the conversation history. -/
theorem loopIter_states_history (st : GameState) (inp : String) (users : List String)
    (replies : List (Except SvcError String)) :
    ∀ s ∈ (loopIter st inp users replies).states,
      ∃ suffix, s.history = st.history ++ suffix := by
  intro s hs
  simp only [loopIter] at hs
  split at hs
  next hempty =>
    simp only [StepOut.states, List.mem_singleton] at hs
    subst hs
    exact ⟨[], by simp⟩
  next hnon =>
    cases replies with
    | nil =>
      simp only [StepOut.states, List.mem_singleton] at hs
      subst hs
      exact ⟨[], by simp⟩
    | cons svc replies1 =>
      cases svc with
      | error e => simp [getAiResponse, StepOut.states] at hs
      | ok reply =>
        simp only [getAiResponse] at hs
        split at hs
        next hwin =>
          simp only [StepOut.states, List.mem_singleton] at hs
          subst hs
          simp only [scanReply_history, appendExchange_history]
          exact ⟨_, rfl⟩
        next hnowin =>
          obtain ⟨suf2, hsuf2⟩ := hintPhase_states_history _ _ users replies1 s hs
          rw [hsuf2]
          simp only [scanReply_history, appendExchange_history]
          exact ⟨_, by rw [List.append_assoc]⟩

/-- A whole run of the loop only ever appends to the conversation history:
every request replays the existing history and extends it. -/
theorem gameRunF_history : ∀ (fuel : Nat) (st : GameState) (users : List String)
    (replies : List (Except SvcError String)) (s : GameState),
    (gameRunF fuel st users replies).2 = Except.ok s →
    ∃ suffix, s.history = st.history ++ suffix := by
  intro fuel
  induction fuel with
  | zero =>
    intro st users replies s hs
    simp only [gameRunF, Except.ok.injEq] at hs
    subst hs
    exact ⟨[], by simp⟩
  | succ fuel ih =>
    intro st users replies s hs
    by_cases hg : st.attempts < st.maxAttempts ∧ st.gameOver = false
    · cases users with
      | nil =>
        simp only [gameRunF, hg, and_self, if_true, Except.ok.injEq] at hs
        subst hs
        exact ⟨[], by simp⟩
      | cons inp users1 =>
        cases hLI : loopIter st inp users1 replies with
        | done res =>
          cases res with
          | ok s0 =>
            simp only [gameRunF, hg, and_self, if_true, hLI, Except.ok.injEq] at hs
            subst hs
            exact loopIter_states_history st inp users1 replies s0
              (by rw [hLI]; simp [StepOut.states])
          | error e =>
            simp only [gameRunF, hg, and_self, if_true, hLI] at hs
            cases hs
        | next st2 u2 r2 =>
          simp only [gameRunF, hg, and_self, if_true, hLI] at hs
          obtain ⟨suf1, hsuf1⟩ := loopIter_states_history st inp users1 replies st2
            (by rw [hLI]; simp [StepOut.states])
          obtain ⟨suf2, hsuf2⟩ := ih st2 u2 r2 s hs
          refine ⟨suf1 ++ suf2, ?_⟩
          rw [hsuf2, hsuf1, List.append_assoc]
    · simp only [gameRunF, hg, if_false, Except.ok.injEq] at hs
      subst hs
      exact ⟨[], by simp⟩

/-- The hint phase never changes `game_over`: hint replies are not scanned
for win keywords. -/
theorem hintPhase_states_gameOver (st : GameState) (g : String) (users : List String)
    (replies : List (Except SvcError String)) :
    ∀ s ∈ (hintPhase st g users replies).states, s.gameOver = st.gameOver := by
  intro s hs
  cases users with
  | nil =>
    simp only [hintPhase] at hs
    split at hs <;>
      · simp only [StepOut.states, List.mem_singleton] at hs
        subst hs
        rfl
  | cons choice users2 =>
    simp only [hintPhase] at hs
    split at hs
    next hcond =>
      split at hs
      next hyes =>
        cases replies with
        | nil =>
          simp only [StepOut.states, List.mem_singleton] at hs
          subst hs
          rfl
        | cons svc replies2 =>
          simp only [acceptHint, getAiResponse] at hs
          cases svc with
          | error e => simp [StepOut.states] at hs
          | ok reply =>
            simp only [StepOut.states, List.mem_singleton] at hs
            subst hs
            simp
      next hno =>
        simp only [StepOut.states, List.mem_singleton] at hs
        subst hs
        rfl
    next hcond =>
      simp only [StepOut.states, List.mem_singleton] at hs
      subst hs
      rfl

/-- From an unfinished state, any state a loop iteration halts in with
`game_over` set contains a scanned reply that matched a win keyword. -/
theorem loopIter_states_win (st : GameState) (inp : String) (users : List String)
    (replies : List (Except SvcError String)) (hgo : st.gameOver = false) :
    ∀ s ∈ (loopIter st inp users replies).states, s.gameOver = true →
      ∃ rep, rep ∈ s.scanned ∧ winDetect rep = true := by
  intro s hs htrue
  simp only [loopIter] at hs
  split at hs
  next hempty =>
    simp only [StepOut.states, List.mem_singleton] at hs
    subst hs
    simp only at htrue
    rw [hgo] at htrue
    cases htrue
  next hnon =>
    cases replies with
    | nil =>
      simp only [StepOut.states, List.mem_singleton] at hs
      subst hs
      simp only at htrue
      rw [hgo] at htrue
      cases htrue
    | cons svc replies1 =>
      cases svc with
      | error e => simp [getAiResponse, StepOut.states] at hs
      | ok reply =>
        simp only [getAiResponse] at hs
        split at hs
        next hwin =>
          simp only [StepOut.states, List.mem_singleton] at hs
          subst hs
          refine ⟨reply, by simp, ?_⟩
          simp only [scanReply_gameOver, appendExchange_gameOver] at hwin
          rw [hgo] at hwin
          simpa using hwin
        next hnowin =>
          have hgo2 := hintPhase_states_gameOver _ _ users replies1 s hs
          rw [htrue] at hgo2
          have : (scanReply (appendExchange { st with attempts := st.attempts + 1 }
              (guessAnalysisText (pyStrip inp)) reply) reply).gameOver = false := by
            cases hcase : (scanReply (appendExchange { st with attempts := st.attempts + 1 }
                (guessAnalysisText (pyStrip inp)) reply) reply).gameOver
            · rfl
            · exact absurd hcase hnowin
          rw [this] at hgo2
          cases hgo2
  
/-- From an unfinished state, a loop iteration that continues the loop
continues with `game_over` still false. -/
theorem loopIter_next_gameOver (st : GameState) (inp : String) (users : List String)
    (replies : List (Except SvcError String)) (hgo : st.gameOver = false) :
    ∀ s u2 r2, loopIter st inp users replies = StepOut.next s u2 r2 →
      s.gameOver = false := by
  intro s u2 r2 h
  simp only [loopIter] at h
  split at h
  next hempty =>
    cases h
    exact hgo
  next hnon =>
    cases replies with
    | nil => cases h
    | cons svc replies1 =>
      cases svc with
      | error e =>
        simp only [getAiResponse] at h
        cases h
      | ok reply =>
        simp only [getAiResponse] at h
        split at h
        next hwin => cases h
        next hnowin =>
          have hmem : s ∈ (hintPhase (scanReply (appendExchange
              { st with attempts := st.attempts + 1 }
              (guessAnalysisText (pyStrip inp)) reply) reply)
              (pyStrip inp) users replies1).states := by
            rw [h]
            simp [StepOut.states]
          have hgo2 := hintPhase_states_gameOver _ _ users replies1 s hmem
          rw [hgo2]
          cases hcase : (scanReply (appendExchange { st with attempts := st.attempts + 1 }
              (guessAnalysisText (pyStrip inp)) reply) reply).gameOver
          · rfl
          · exact absurd hcase hnowin

/-- Over a whole run from an unfinished state, the game can only finish
through a scanned guess reply that matched a win keyword. -/
theorem gameRunF_winOrigin : ∀ (fuel : Nat) (st : GameState) (users : List String)
    (replies : List (Except SvcError String)) (s : GameState),
    (gameRunF fuel st users replies).2 = Except.ok s → s.gameOver = true →
    st.gameOver = true ∨ ∃ rep, rep ∈ s.scanned ∧ winDetect rep = true := by
  intro fuel
  induction fuel with
  | zero =>
    intro st users replies s hs htrue
    simp only [gameRunF, Except.ok.injEq] at hs
    subst hs
    exact Or.inl htrue
  | succ fuel ih =>
    intro st users replies s hs htrue
    by_cases hg : st.attempts < st.maxAttempts ∧ st.gameOver = false
    · cases users with
      | nil =>
        simp only [gameRunF, hg, and_self, if_true, Except.ok.injEq] at hs
        subst hs
        exact Or.inl htrue
      | cons inp users1 =>
        cases hLI : loopIter st inp users1 replies with
        | done res =>
          cases res with
          | ok s0 =>
            simp only [gameRunF, hg, and_self, if_true, hLI, Except.ok.injEq] at hs
            subst hs
            exact Or.inr (loopIter_states_win st inp users1 replies hg.2 s0
              (by rw [hLI]; simp [StepOut.states]) htrue)
          | error e =>
            simp only [gameRunF, hg, and_self, if_true, hLI] at hs
            cases hs
        | next st2 u2 r2 =>
          simp only [gameRunF, hg, and_self, if_true, hLI] at hs
          have hgo2 := loopIter_next_gameOver st inp users1 replies hg.2 st2 u2 r2 hLI
          rcases ih st2 u2 r2 s hs htrue with hcase | hcase
          · rw [hgo2] at hcase
            cases hcase
          · exact Or.inr hcase
    · simp only [gameRunF, hg, if_false, Except.ok.injEq] at hs
      subst hs
      exact Or.inl htrue

/-- An empty (whitespace-only) guess costs nothing: the loop outcome from an
empty input is the outcome of the same loop without that input (one unit of
fuel accounts for the consumed prompt). -/
theorem gameRunF_emptyGuess (fuel : Nat) (st : GameState) (inp : String) (users : List String)
    (replies : List (Except SvcError String)) (h1 : st.attempts < st.maxAttempts)
    (h2 : st.gameOver = false) (h3 : pyStrip inp = "") :
    (gameRunF (fuel + 1) st (inp :: users) replies).2 = (gameRunF fuel st users replies).2 := by
  have hg : st.attempts < st.maxAttempts ∧ st.gameOver = false := ⟨h1, h2⟩
  have hLI : loopIter st inp users replies = StepOut.next st users replies := by
    cases st
    simp [loopIter, h3]
  simp only [gameRunF, hg, and_self, if_true, hLI]

/-- A service error raised on the guess request aborts the run immediately:
the error is the loop result, whatever input or replies would have followed. -/
theorem gameRunF_errorFirst (fuel : Nat) (st : GameState) (inp : String) (users : List String)
    (post : List (Except SvcError String)) (e : SvcError)
    (h1 : st.attempts < st.maxAttempts) (h2 : st.gameOver = false)
    (h3 : ¬ pyStrip inp = "") :
    gameRunF (fuel + 1) st (inp :: users) (Except.error e :: post) = ([st], Except.error e) := by
  have hg : st.attempts < st.maxAttempts ∧ st.gameOver = false := ⟨h1, h2⟩
  have hLI : loopIter st inp users (Except.error e :: post) = StepOut.done (Except.error e) := by
    simp [loopIter, h3, getAiResponse]
  simp only [gameRunF, hg, and_self, if_true, hLI]

/-- C1: win detection over a guess reply is case-insensitive substring
matching against the fixed keyword set: `winDetect` is true exactly when
some keyword occurs as a substring of the lowercased reply, the scan sets
`game_over` exactly when `winDetect` fires, `"Correct! Well done."` is
detected as a win, and `"Not quite, try again"` is not. -/
theorem c1_win_detection_keyword_substring :
    (∀ reply : String, winDetect reply = true ↔
        ∃ k, k ∈ winKeywords ∧ ∃ pre post, (strLower reply).data = pre ++ k.data ++ post)
    ∧ (∀ (st : GameState) (reply : String),
        (scanReply st reply).gameOver = (st.gameOver || winDetect reply))
    ∧ winDetect "Correct! Well done." = true
    ∧ winDetect "Not quite, try again" = false := by
  refine ⟨?_, fun st reply => rfl, by decide, by decide⟩
  intro reply
  simp only [winDetect, List.any_eq_true, strContains, hasSubList_iff]

/-- C2 counterexample: the payload built for a chain-of-thought guess
analysis (the request issued for every guess of the main loop) begins with
two SYSTEM turns — the persona and the reasoning scaffold — so it does not
begin with exactly one SYSTEM turn. -/
theorem c2_counterexample_two_system_turns :
    ¬ beginsWithExactlyOneSystem
      (buildConversationContext (guessAnalysisText "cat") PromptType.chainOfThought initState) := by
  unfold beginsWithExactlyOneSystem
  decide

/-- C2 (amended): every payload sent to the completion service begins with
a non-empty block of SYSTEM turns whose first element is the persona
definition, followed by the conversation history and the current player
turn; so at least one SYSTEM turn — the persona, first — precedes every
PLAYER/ASSISTANT turn, but the payload may open with more than one SYSTEM
turn (few-shot and chain-of-thought prompts are also SYSTEM turns). -/
theorem c2_payload_starts_with_system_persona :
    ∀ (userInput : String) (pt : PromptType) (gs : GameState),
      ∃ sys : List Message,
        buildConversationContext userInput pt gs = sys ++ gs.history ++ [⟨Role.user, userInput⟩]
          ∧ sys.head? = some ⟨Role.system, gameMasterPrompt⟩
          ∧ sys ≠ []
          ∧ ∀ m ∈ sys, m.role = Role.system := by
  intro userInput pt gs
  obtain ⟨sys, e1, e2, e3⟩ := buildContext_split userInput pt gs
  refine ⟨sys, e1, e2, ?_, e3⟩
  intro hnil
  rw [hnil] at e2
  simp at e2

/-- C3: empty or whitespace-only guess input never increments
`attempts_used`: processing an empty input leaves the loop outcome exactly
that of the remaining inputs, and with `max_attempts = 4`, three empty
submissions followed by one non-empty submission leave `attempts = 1`. -/
theorem c3_empty_input_never_counts :
    (∀ (fuel : Nat) (st : GameState) (inp : String) (users : List String)
        (replies : List (Except SvcError String)),
      st.attempts < st.maxAttempts → st.gameOver = false → pyStrip inp = "" →
      (gameRunF (fuel + 1) st (inp :: users) replies).2 = (gameRunF fuel st users replies).2)
    ∧ ((gameRun initState ["", "   ", "", "hello"]
        [Except.ok "Not quite, try again"]).2.toOption.map (fun s => s.attempts)) = some 1 := by
  exact ⟨fun fuel st inp users replies h1 h2 h3 =>
    gameRunF_emptyGuess fuel st inp users replies h1 h2 h3, by decide⟩

/-- C4: streaming and non-streaming consumption yield the identical final
reply text: the streaming consumer concatenates the fragments in arrival
order, so whenever the fragment sequence concatenates to the non-streaming
single-message value, the consumer returns exactly that value; for
`["Hel", "lo, ", "world!"]` it returns `"Hello, world!"`. -/
theorem c4_streaming_nonstreaming_equal :
    (∀ chunks, consumeStream chunks = concatFragments (chunks.filterMap id))
    ∧ (∀ chunks msg, concatFragments (chunks.filterMap id) = msg → consumeStream chunks = msg)
    ∧ consumeStream [some "Hel", some "lo, ", some "world!"] = "Hello, world!" := by
  refine ⟨consumeStream_eq, ?_, by decide⟩
  intro chunks msg h
  rw [consumeStream_eq, h]

/-- C5: with `max_attempts = 4`, a session of four non-empty guesses whose
replies contain no win keyword ends with `game_over = false` and
`attempts = 4`, exactly four guess replies scanned, and exactly five
completed requests (one initial clue plus four guess analyses) — no fifth
guess request is issued. -/
theorem c5_loss_after_four_attempts :
    ((runSession initState
        ["apple", "n", "banana", "n", "cherry", "n", "mango"]
        [Except.ok "I am thinking of a word. It is a fruit.",
         Except.ok "Not quite, try again", Except.ok "Not quite, try again",
         Except.ok "Not quite, try again", Except.ok "Not quite, try again"]).2.toOption.map
      (fun s => (s.gameOver, s.attempts, s.scanned.length, s.requests))) =
      some (false, 4, 4, 5) := by
  decide

/-- C6: the hint budget is enforced — once `hints_given` has reached
`max_hints`, no further hint offer is ever presented and no further hint is
taken for the rest of the run; and an accepted hint increments
`hints_given`, issues exactly one extra request, and continues the loop
without consuming an attempt. -/
theorem c6_hint_budget_enforced :
    (∀ (fuel : Nat) (st : GameState) (users : List String)
        (replies : List (Except SvcError String)) (s : GameState),
      st.maxHints ≤ st.hintsGiven → (gameRunF fuel st users replies).2 = Except.ok s →
      s.offers = st.offers ∧ s.hintsGiven = st.hintsGiven)
    ∧ (∀ (st : GameState) (g choice : String) (users2 : List String) (reply : String)
        (replies2 : List (Except SvcError String)),
      st.attempts < st.maxAttempts → st.gameOver = false → st.hintsGiven < st.maxHints →
      isYes choice = true →
      ∃ stF, hintPhase st g (choice :: users2) (Except.ok reply :: replies2) =
          StepOut.next stF users2 replies2
        ∧ stF.hintsGiven = st.hintsGiven + 1
        ∧ stF.requests = st.requests + 1
        ∧ stF.attempts = st.attempts
        ∧ stF.gameOver = st.gameOver)
    ∧ ((gameRun { initState with hintsGiven := 3 } ["apple", "banana"]
        [Except.ok "Not quite, try again", Except.ok "No, sorry."]).2.toOption.map
      (fun s => (s.offers, s.hintsGiven))) = some (0, 3) := by
  refine ⟨gameRunF_budget, ?_, by decide⟩
  intro st g choice users2 reply replies2 hA hB hC hyes
  have hcond : st.attempts < st.maxAttempts ∧ st.gameOver = false ∧ st.hintsGiven < st.maxHints :=
    ⟨hA, hB, hC⟩
  refine ⟨appendExchange
      { st with offers := st.offers + 1, hintsGiven := st.hintsGiven + 1 }
      (hintRequestText st.attempts st.maxAttempts (st.hintsGiven + 1) g) reply,
    ?_, by simp, by simp, by simp, by simp⟩
  simp [hintPhase, hcond, hyes, acceptHint, getAiResponse]

/-- C7: the request payload replays the full conversation history, in exact
insertion order with no omission or reordering, on every request: the built
context contains the history contiguously before the current player turn,
each completed exchange appends its two turns at the end, and a run of the
loop only ever extends the history. -/
theorem c7_full_history_replay_in_order :
    (∀ (userInput : String) (pt : PromptType) (gs : GameState),
      ∃ pre, buildConversationContext userInput pt gs =
        pre ++ gs.history ++ [⟨Role.user, userInput⟩])
    ∧ (∀ (st : GameState) (t r : String), (appendExchange st t r).history =
        st.history ++ [⟨Role.user, t⟩, ⟨Role.assistant, r⟩])
    ∧ (∀ (fuel : Nat) (st : GameState) (users : List String)
        (replies : List (Except SvcError String)) (s : GameState),
      (gameRunF fuel st users replies).2 = Except.ok s →
      ∃ suffix, s.history = st.history ++ suffix) := by
  refine ⟨?_, fun st t r => rfl, gameRunF_history⟩
  intro userInput pt gs
  obtain ⟨sys, e1, _, _⟩ := buildContext_split userInput pt gs
  exact ⟨sys, e1⟩

/-- C8: completion-request failures are not retried and propagate as fatal
session-ending errors: a raised error is returned unchanged by the request
wrapper, a failing guess request makes the whole remaining loop return that
error immediately (independently of any further input or replies), and an
error on the very first request of a session is the session result. -/
theorem c8_request_errors_propagate_fatally :
    (∀ (st : GameState) (txt : String) (e : SvcError),
      getAiResponse st txt (Except.error e) = Except.error e)
    ∧ (∀ (fuel : Nat) (st : GameState) (inp : String) (users : List String)
        (post : List (Except SvcError String)) (e : SvcError),
      st.attempts < st.maxAttempts → st.gameOver = false → ¬ pyStrip inp = "" →
      gameRunF (fuel + 1) st (inp :: users) (Except.error e :: post) = ([st], Except.error e))
    ∧ (runSession initState ["apple"] [Except.error SvcError.network]).2 =
        Except.error SvcError.network := by
  exact ⟨fun st txt e => rfl, fun fuel st inp users post e h1 h2 h3 =>
    gameRunF_errorFirst fuel st inp users post e h1 h2 h3, rfl⟩

/-- C9: `game_over` can become true only from the reply to a non-empty
guess: the initial-clue request and accepted-hint requests never change
`game_over` and never scan their replies, any finished run started
unfinished contains a scanned guess reply matching a win keyword, and a
session whose win keywords appear only in a hint reply stays unfinished. -/
theorem c9_win_only_from_scanned_guess_replies :
    (∀ (st : GameState) (svc : Except SvcError String) (s : GameState) (rep : String),
      getAiResponse st initialCluePrompt svc = Except.ok (s, rep) →
      s.gameOver = st.gameOver ∧ s.scanned = st.scanned)
    ∧ (∀ (st : GameState) (g : String) (svc : Except SvcError String) (s : GameState)
        (rep : String),
      acceptHint st g svc = Except.ok (s, rep) →
      s.gameOver = st.gameOver ∧ s.scanned = st.scanned)
    ∧ (∀ (fuel : Nat) (st : GameState) (users : List String)
        (replies : List (Except SvcError String)) (s : GameState),
      (gameRunF fuel st users replies).2 = Except.ok s → s.gameOver = true →
      st.gameOver = true ∨ ∃ rep, rep ∈ s.scanned ∧ winDetect rep = true)
    ∧ ((gameRun initState ["apple", "y"]
        [Except.ok "Not quite, try again",
         Except.ok "Exactly right! Here is a hint: it grows on trees."]).2.toOption.map
      (fun s => (s.gameOver, s.hintsGiven))) = some (false, 1) := by
  refine ⟨?_, ?_, gameRunF_winOrigin, by decide⟩
  · intro st svc s rep h
    cases svc with
    | error e => simp [getAiResponse] at h
    | ok reply =>
      simp only [getAiResponse, Except.ok.injEq, Prod.mk.injEq] at h
      rw [← h.1]
      exact ⟨by simp, by simp⟩
  · intro st g svc s rep h
    cases svc with
    | error e => simp [acceptHint, getAiResponse] at h
    | ok reply =>
      simp only [acceptHint, getAiResponse, Except.ok.injEq, Prod.mk.injEq] at h
      rw [← h.1]
      exact ⟨by simp, by simp⟩

/-- C10: throughout every run started within budgets, the counters stay
within their budgets: `attempts ≤ max_attempts` and
`hints_given ≤ max_hints` hold at every loop check, at the final state,
and along a concrete mixed guess-and-hint session. -/
theorem c10_counters_never_exceed_budgets :
    (∀ (fuel : Nat) (st : GameState) (users : List String)
        (replies : List (Except SvcError String)),
      st.attempts ≤ st.maxAttempts → st.hintsGiven ≤ st.maxHints →
      ((∀ s ∈ (gameRunF fuel st users replies).1,
          s.attempts ≤ s.maxAttempts ∧ s.hintsGiven ≤ s.maxHints)
        ∧ (∀ s, (gameRunF fuel st users replies).2 = Except.ok s →
          s.attempts ≤ s.maxAttempts ∧ s.hintsGiven ≤ s.maxHints)))
    ∧ (∀ s ∈ (runSession initState ["apple", "y", "banana"]
        [Except.ok "Here is a clue.", Except.ok "Not quite, try again",
         Except.ok "Hint: it is sweet.", Except.ok "Wrong again."]).1,
      s.attempts ≤ s.maxAttempts ∧ s.hintsGiven ≤ s.maxHints) := by
  exact ⟨gameRunF_inv, by decide⟩

end GuessingGame







